import Mathlib

/-
Verification of the mobile-network capacity model
(src/mobile_capacity/capacity.py) against its specification.

The numeric core operates on numpy float arrays, so values are modelled by
an extended-value type with the IEEE semantics the code relies on:
not-a-number, the two infinities and finite values (exact rationals; no
rounding is relevant to the properties below).  Fallible calls are
modelled with Except: a numpy/python exception that escapes a function is
an error value, and the try/except in poiddatareq maps it back to the
all-nan result array the code returns in that case.
-/

namespace MobileCapacity

/-- Extended value: the float values that flow through the capacity model.
nan is the not-a-number sentinel, inf and ninf the two infinities, fin an
exact finite value. -/
inductive EVal : Type where
  | nan  : EVal
  | inf  : EVal
  | ninf : EVal
  | fin  : ℚ → EVal
deriving DecidableEq, Repr

namespace EVal

/-- IEEE negation. -/
def neg : EVal → EVal
  | nan => nan
  | inf => ninf
  | ninf => inf
  | fin q => fin (-q)

/-- IEEE addition: nan absorbs, inf + (-inf) = nan. -/
def add : EVal → EVal → EVal
  | nan, _ => nan
  | _, nan => nan
  | inf, ninf => nan
  | ninf, inf => nan
  | inf, _ => inf
  | _, inf => inf
  | ninf, _ => ninf
  | _, ninf => ninf
  | fin a, fin b => fin (a + b)

/-- IEEE multiplication: nan absorbs, inf * 0 = nan, signs multiply. -/
def mul : EVal → EVal → EVal
  | nan, _ => nan
  | _, nan => nan
  | inf, inf => inf
  | inf, ninf => ninf
  | ninf, inf => ninf
  | ninf, ninf => inf
  | inf, fin b => if 0 < b then inf else if b < 0 then ninf else nan
  | fin a, inf => if 0 < a then inf else if a < 0 then ninf else nan
  | ninf, fin b => if 0 < b then ninf else if b < 0 then inf else nan
  | fin a, ninf => if 0 < a then ninf else if a < 0 then inf else nan
  | fin a, fin b => fin (a * b)

/-- IEEE subtraction. -/
def sub (a b : EVal) : EVal := a.add b.neg

/-- IEEE division: nan absorbs, inf/inf = nan, finite/0 is a signed
infinity (0/0 = nan), finite/inf = 0. -/
def div : EVal → EVal → EVal
  | nan, _ => nan
  | _, nan => nan
  | inf, inf => nan
  | inf, ninf => nan
  | ninf, inf => nan
  | ninf, ninf => nan
  | inf, fin b => if 0 ≤ b then inf else ninf
  | ninf, fin b => if 0 ≤ b then ninf else inf
  | fin _, inf => fin 0
  | fin _, ninf => fin 0
  | fin a, fin b =>
      if b = 0 then (if 0 < a then inf else if a < 0 then ninf else nan)
      else fin (a / b)

/-- IEEE comparison a ≤ b: false whenever a nan is involved. -/
def ble : EVal → EVal → Bool
  | nan, _ => false
  | _, nan => false
  | ninf, _ => true
  | _, ninf => false
  | _, inf => true
  | inf, _ => false
  | fin a, fin b => a ≤ b

/-- IEEE comparison a ≥ b (numpy's elementwise >=). -/
def bge (a b : EVal) : Bool := ble b a

/-- IEEE comparison a > b: false whenever a nan is involved. -/
def bgt : EVal → EVal → Bool
  | nan, _ => false
  | _, nan => false
  | inf, inf => false
  | inf, _ => true
  | _, inf => false
  | ninf, _ => false
  | _, ninf => true
  | fin a, fin b => b < a

end EVal

/-- A band's lookup table: one row per breakpoint, pairing the distance
breakpoint (km, column of bwdistance_km) with the achievable downlink
bitrate (kbps, same row of bwdlachievbr).  The two CSV columns of a band
have equal row count, so the paired form is faithful. -/
abbrev BandTable := List (EVal × EVal)

/-- Capacity parameters used by the numeric core (the relevant attributes
of the Capacity object). -/
structure Cfg where
  bw_L850 : ℚ
  bw_L1800 : ℚ
  bw_L2600 : ℚ
  cco : ℚ
  rb_num_multiplier : ℚ
  dlthtarg : ℚ
  max_radius : ℚ
  tbl_L850 : BandTable
  tbl_L1800 : BandTable
  tbl_L2600 : BandTable
deriving DecidableEq

/-- Total bandwidth in MHz (property bw). -/
def Cfg.bw (c : Cfg) : ℚ := c.bw_L850 + c.bw_L1800 + c.bw_L2600

/-- Number of resource blocks (property nrb = bw * rb_num_multiplier). -/
def Cfg.nrb (c : Cfg) : ℚ := c.bw * c.rb_num_multiplier

/-- Average number of RBs available for PDSCH
(property avrbpdsch = ((100 - cco) / nrb) * 100); the python division
raises ZeroDivisionError when nrb = 0, which callers model explicitly. -/
def Cfg.avrbpdsch (c : Cfg) : ℚ := ((100 - c.cco) / c.nrb) * 100

/-- Index of the first true entry of a boolean list (the list's length if
none is true). -/
def firstTrueIdx : List Bool → Nat
  | [] => 0
  | true :: _ => 0
  | false :: l => firstTrueIdx l + 1

/-- numpy argmax over a boolean vector: index of the first true entry, 0
when every entry is false. -/
def argmaxB (l : List Bool) : Nat := if l.any id then firstTrueIdx l else 0

/-- Per-band bitrate lookup of get_dl_bitrate: build the mask
(breakpoint >= distance), take the bitrate at the argmax of the mask and
overwrite with nan where the mask has no true entry. -/
def band_lookup (tbl : BandTable) (dkm : EVal) : EVal :=
  let mask := tbl.map (fun e => EVal.bge e.1 dkm)
  if mask.any id then (tbl.map Prod.snd).getD (argmaxB mask) EVal.nan
  else EVal.nan

/-- Weighted downlink bitrate of get_dl_bitrate at one distance (meters):
convert to km, look each band up and form the bandwidth-weighted sum
(np.dot with weights bw_band / bw). -/
def dl_bitrate_at (c : Cfg) (d_m : EVal) : EVal :=
  let dkm := d_m.div (.fin 1000)
  let w850 := (EVal.fin c.bw_L850).div (.fin c.bw)
  let w1800 := (EVal.fin c.bw_L1800).div (.fin c.bw)
  let w2600 := (EVal.fin c.bw_L2600).div (.fin c.bw)
  (((band_lookup c.tbl_L850 dkm).mul w850).add
    ((band_lookup c.tbl_L1800 dkm).mul w1800)).add
    ((band_lookup c.tbl_L2600 dkm).mul w2600)

/-- get_dl_bitrate over a batch of distances in meters.  Error cases that
raise in the source: weight creation divides by the python scalar bw
(ZeroDivisionError when bw = 0), and mask.argmax over an empty band table
raises ValueError when there is at least one queried distance. -/
def get_dl_bitrate (c : Cfg) (ds : List EVal) : Except Unit (List EVal) :=
  if c.bw = 0 then .error ()
  else if ds ≠ [] ∧ (c.tbl_L850 = [] ∨ c.tbl_L1800 = [] ∨ c.tbl_L2600 = []) then .error ()
  else .ok (ds.map (dl_bitrate_at c))

/-- poiddatareq: required resource blocks per distance (meters).  The
result array is prefilled with nan; inside try, positions passing
d <= max_radius get dlthtarg * 1024 / (dl_bitrate / avrbpdsch), the rest
get inf; any exception (empty band table in get_dl_bitrate, or
ZeroDivisionError from avrbpdsch when nrb = 0) is caught and the prefilled
all-nan array is returned. -/
def poiddatareq (c : Cfg) (d : List EVal) : List EVal :=
  if c.nrb = 0 then d.map (fun _ => EVal.nan)
  else
    match get_dl_bitrate c d with
    | .error _ => d.map (fun _ => EVal.nan)
    | .ok dl =>
        (d.zip dl).map (fun p =>
          if EVal.ble p.1 (EVal.fin c.max_radius)
          then (EVal.fin (c.dlthtarg * 1024)).div (p.2.div (EVal.fin c.avrbpdsch))
          else EVal.inf)

/-- brrbpopcd: bitrate per resource block at population-center distance.
Same error handling as poiddatareq (try/except returning the prefilled
all-nan array). -/
def brrbpopcd (c : Cfg) (popcd : List EVal) : List EVal :=
  if c.nrb = 0 then popcd.map (fun _ => EVal.nan)
  else
    match get_dl_bitrate c popcd with
    | .error _ => popcd.map (fun _ => EVal.nan)
    | .ok dl => dl.map (fun v => v.div (EVal.fin c.avrbpdsch))

/-- numpy broadcasting of a binary elementwise operation over two
flattened arrays of which at least one is size 1 or both have equal
length (the shapes the callers below let through). -/
def broadcast2 {α : Type} (f : EVal → EVal → α) (a b : List EVal) : List α :=
  if a.length = 1 then b.map (f (a.headD .nan))
  else if b.length = 1 then a.map (fun x => f x (b.headD .nan))
  else a.zipWith f b

/-- upoprbu: user-population resource-block utilisation, elementwise
upopbr / brrbpopcd.  Raises (error) when upopbr is neither size 1 nor of
brrbpopcd's size — note the check inspects only upopbr's size, so an
array upopbr paired with a scalar brrbpopcd raises. -/
def upoprbu (upopbr brrbpopcd : List EVal) : Except Unit (List EVal) :=
  if upopbr.length ≠ 1 ∧ upopbr.length ≠ brrbpopcd.length then .error ()
  else .ok (broadcast2 EVal.div upopbr brrbpopcd)

/-- cellavcap: available cell capacity, elementwise
avrbpdsch - upoprbu.  Raises (error) when avrbpdsch is neither size 1 nor
of upoprbu's size — again only the first argument's size is inspected. -/
def cellavcap (avrbpdsch upoprbu : List EVal) : Except Unit (List EVal) :=
  if avrbpdsch.length ≠ 1 ∧ avrbpdsch.length ≠ upoprbu.length then .error ()
  else .ok (broadcast2 EVal.sub avrbpdsch upoprbu)

/-- sufcapch: sufficiency check, elementwise cellavcap > rbdlthtarg.
Raises (error) exactly when both inputs are non-scalar and of different
lengths. -/
def sufcapch (cellavcap rbdlthtarg : List EVal) : Except Unit (List Bool) :=
  if cellavcap.length ≠ 1 ∧ rbdlthtarg.length ≠ 1 ∧
      cellavcap.length ≠ rbdlthtarg.length then .error ()
  else .ok (broadcast2 EVal.bgt cellavcap rbdlthtarg)

/-- The radius values iterated by calculate_buffer_areas' loop
range(min_radius, max_radius + 1, radius_step) for a positive step, i.e.
min_radius, min_radius + step, ... while ≤ max_radius; empty when
min_radius > max_radius.  These are the labels of the buffer_r, ring_r,
clring_r and clbuffer_r columns the loop creates; the subsequent
selection of column clbuffer_{max_radius} is modelled by bufferRings. -/
def ringLabels (mn mx step : ℤ) : List ℤ :=
  if mx < mn then []
  else (List.range ((mx - mn).toNat / step.toNat + 1)).map
    (fun (k : ℕ) => mn + (k : ℤ) * step)

/-- The ring records of the long-format melt, restricted to the fields
the radius claims are about: the radius label (the buffer column) paired
with the representative radius, label - radius_step / 2 (a float
division).  Only reached when bufferRings succeeds. -/
def ringRadii (mn mx step : ℤ) : List (ℤ × ℚ) :=
  (ringLabels mn mx step).map (fun r => (r, (r : ℚ) - (step : ℚ) / 2))

/-- The buffer/ring assembly of calculate_buffer_areas: after the radius
loop creates the per-label columns, the long-format conversion selects
the single column clbuffer_{max_radius}.  When max_radius is not among
the generated labels — an uneven step, or a range producing zero steps —
that column was never created and pandas raises KeyError, aborting the
call before any ring record is produced; otherwise the melt yields the
ring records. -/
def bufferRings (mn mx step : ℤ) : Except Unit (List (ℤ × ℚ)) :=
  if mx ∈ ringLabels mn mx step then .ok (ringRadii mn mx step)
  else .error ()

/-- One visibility pair of an externally supplied visibility table
(entities/visibilitypair): point id, site id (possibly missing), rank
order, ground distance and is-visible flag. -/
structure VisPair where
  poi_id : ℕ
  ict_id : Option ℕ
  order : ℤ
  ground_distance : EVal
  is_visible : EVal
deriving DecidableEq

/-- One row of the pois_within_cellsites table after the visibility
section: point id, assigned site id (missing when the point fell in no
buffer and matched no visibility row), ground distance and is-visible
flag. -/
structure PoiRow where
  poi_id : ℕ
  ict_id : Option ℕ
  ground_distance : EVal
  is_visible : EVal
deriving DecidableEq

/-- A point with the site assignment produced by the spatial join of the
points with the maximal clipped buffers (live mode input). -/
structure AssignedPoi where
  poi_id : ℕ
  ict_id : Option ℕ
deriving DecidableEq

/-- _get_visibility_status: a row with a missing site id gets
(nan, nan) without touching the oracle; otherwise the visibility
analyzer's pair analysis is invoked on (poi_id, ict_id). -/
def get_visibility_status (oracle : ℕ → ℕ → EVal × EVal)
    (p : ℕ) (ict : Option ℕ) : EVal × EVal :=
  match ict with
  | none => (.nan, .nan)
  | some s => oracle p s

/-- Live mode: per assigned point, the row produced by applying
_get_visibility_status. -/
def liveRows (oracle : ℕ → ℕ → EVal × EVal)
    (assigned : List AssignedPoi) : List PoiRow :=
  assigned.map (fun a =>
    let v := get_visibility_status oracle a.poi_id a.ict_id
    ⟨a.poi_id, a.ict_id, v.1, v.2⟩)

/-- Live mode: the oracle invocations made while building the rows — one
per point whose site id is present, none for unassigned points. -/
def liveCalls (assigned : List AssignedPoi) : List (ℕ × ℕ) :=
  assigned.filterMap (fun a => a.ict_id.map (fun s => (a.poi_id, s)))

/-- Precomputed mode: filter the supplied table to rank order 1 and left
merge the points on poi_id (pandas keeps one row per match, and one
all-nan row when there is no match). -/
def precomputedRows (pois : List ℕ) (vt : List VisPair) : List PoiRow :=
  let vf := vt.filter (fun v => v.order = 1)
  pois.flatMap (fun p =>
    let ms := vf.filter (fun v => v.poi_id = p)
    if ms.isEmpty then [⟨p, none, .nan, .nan⟩]
    else ms.map (fun v => ⟨p, v.ict_id, v.ground_distance, v.is_visible⟩))

/-- The visibility section of calculate_buffer_areas: precomputed mode
when a visibility table was supplied, live mode otherwise.  Returns the
point rows together with the list of oracle invocations performed. -/
def resolveVisibility (pre : Option (List VisPair)) (pois : List ℕ)
    (assigned : List AssignedPoi) (oracle : ℕ → ℕ → EVal × EVal) :
    List PoiRow × List (ℕ × ℕ) :=
  match pre with
  | none => (liveRows oracle assigned, liveCalls assigned)
  | some vt => (precomputedRows pois vt, [])

/-- The left merge of the point table with the per-site capacity table
(cellsites_rbu) on ict_id: a missing site id or a site absent from the
table yields nan. -/
def mergeCellavcap (siteCap : List (ℕ × EVal)) (r : PoiRow) : EVal :=
  match r.ict_id with
  | none => .nan
  | some s =>
      match siteCap.find? (fun e => e.1 = s) with
      | some e => e.2
      | none => .nan

/-- fillna(0) on the merged cellavcap column. -/
def fillZero (v : EVal) : EVal := if v = .nan then .fin 0 else v

/-- The cellavcap column of pois_within_cellsites after the merge and
fillna(0). -/
def poiCellavcap (siteCap : List (ℕ × EVal)) (rows : List PoiRow) : List EVal :=
  rows.map (fun r => fillZero (mergeCellavcap siteCap r))

/-- POI-level tail of calculate_buffer_areas: rbdlthtarg from poiddatareq
over the ground-distance column, cellavcap from the merge with
fillna(0), and the final sufcapch column. -/
def poiSufficiency (c : Cfg) (siteCap : List (ℕ × EVal))
    (rows : List PoiRow) : List Bool :=
  let rb := poiddatareq c (rows.map (fun r => r.ground_distance))
  let cav := poiCellavcap siteCap rows
  match sufcapch cav rb with
  | .ok l => l
  | .error _ => []

/-- The three band tables of the scenario configuration (km breakpoints
paired with kbps bitrates). -/
def tblL850_scn : BandTable :=
  [(.fin 2, .fin 20000), (.fin 5, .fin 10000), (.fin 10, .fin 5000)]

def tblL1800_scn : BandTable :=
  [(.fin 1, .fin 15000), (.fin 3, .fin 8000), (.fin 6, .fin 3000)]

def tblL2600_scn : BandTable :=
  [(.fin (1/2), .fin 10000), (.fin 1, .fin 5000), (.fin 2, .fin 1000)]

/-- The scenario configuration of the spec: bandwidths 10/10/10 MHz,
cco = 10 %, rb_num_multiplier = 5, dlthtarg = 5 Mbps, with the max_radius
left as a parameter (the scenario fixes 1500 m to be within range). -/
def cfgScn (mr : ℚ) : Cfg :=
  { bw_L850 := 10, bw_L1800 := 10, bw_L2600 := 10
    cco := 10, rb_num_multiplier := 5, dlthtarg := 5, max_radius := mr
    tbl_L850 := tblL850_scn, tbl_L1800 := tblL1800_scn, tbl_L2600 := tblL2600_scn }

/-- A configuration whose band tables contain a zero bitrate: one
breakpoint at 2 km with bitrate 0 kbps in each band. -/
def cfgZeroBr : Cfg :=
  { bw_L850 := 10, bw_L1800 := 10, bw_L2600 := 10
    cco := 10, rb_num_multiplier := 5, dlthtarg := 5, max_radius := 2000
    tbl_L850 := [(.fin 2, .fin 0)], tbl_L1800 := [(.fin 2, .fin 0)]
    tbl_L2600 := [(.fin 2, .fin 0)] }

/-- A rational band table (ascending breakpoints paired with bitrates)
embedded as the float table the code reads. -/
def embedTbl (t : List (ℚ × ℚ)) : BandTable :=
  t.map (fun p => (EVal.fin p.1, EVal.fin p.2))

/-- The scenario band tables as rational tables. -/
def tQ850 : List (ℚ × ℚ) := [(2, 20000), (5, 10000), (10, 5000)]

def tQ1800 : List (ℚ × ℚ) := [(1, 15000), (3, 8000), (6, 3000)]

def tQ2600 : List (ℚ × ℚ) := [(1 / 2, 10000), (1, 5000), (2, 1000)]

/-- A placeholder point row used as getD default. -/
def dummyRow : PoiRow := ⟨0, none, .nan, .nan⟩

/-- A one-row visibility table used to instantiate the precomputed
mode. -/
def vtW : List VisPair := [⟨7, some 3, 1, .fin 500, .fin 1⟩]

/-! ### Basic lemmas about the embedded operations -/

theorem EVal.nan_mul (w : EVal) : EVal.mul .nan w = .nan := by
  cases w <;> rfl

theorem EVal.nan_add (w : EVal) : EVal.add .nan w = .nan := by
  cases w <;> rfl

theorem EVal.add_nan (w : EVal) : EVal.add w .nan = .nan := by
  cases w <;> rfl

theorem EVal.ble_nan_left (x : EVal) : EVal.ble .nan x = false := by
  cases x <;> rfl

theorem EVal.bgt_fin_inf (q : ℚ) : EVal.bgt (.fin q) .inf = false := rfl

theorem EVal.bgt_fin_nan (q : ℚ) : EVal.bgt (.fin q) .nan = false := rfl

theorem EVal.ble_fin_fin (a b : ℚ) :
    EVal.ble (.fin a) (.fin b) = decide (a ≤ b) := rfl

theorem EVal.bge_fin_fin (a b : ℚ) :
    EVal.bge (.fin a) (.fin b) = decide (b ≤ a) := rfl

theorem EVal.bgt_fin_fin (a b : ℚ) :
    EVal.bgt (.fin a) (.fin b) = decide (b < a) := rfl

theorem EVal.bgt_nan_left (x : EVal) : EVal.bgt .nan x = false := by
  cases x <;> rfl

theorem EVal.add_fin_fin (a b : ℚ) :
    EVal.add (.fin a) (.fin b) = .fin (a + b) := rfl

theorem EVal.mul_fin_fin (a b : ℚ) :
    EVal.mul (.fin a) (.fin b) = .fin (a * b) := rfl

theorem EVal.div_fin_fin (a b : ℚ) (hb : b ≠ 0) :
    EVal.div (.fin a) (.fin b) = .fin (a / b) := by
  simp [EVal.div, hb]

theorem EVal.div_fin_zero_pos (a : ℚ) (ha : 0 < a) :
    EVal.div (.fin a) (.fin 0) = .inf := by
  simp [EVal.div, ha]

theorem band_lookup_nil (d : EVal) : band_lookup [] d = .nan := rfl

/-- The mask/argmax lookup of one band unfolds to the expected scan: take
the head's bitrate when the head's breakpoint qualifies, recurse into the
tail otherwise. -/
theorem band_lookup_cons (p : EVal × EVal) (t : BandTable) (d : EVal) :
    band_lookup (p :: t) d =
      (if EVal.bge p.1 d then p.2 else band_lookup t d) := by
  cases hb : EVal.bge p.1 d with
  | true =>
      simp [band_lookup, argmaxB, firstTrueIdx, hb]
  | false =>
      cases hm : (t.map (fun e => EVal.bge e.1 d)).any id with
      | true =>
          simp [band_lookup, argmaxB, firstTrueIdx, hb, hm]
      | false =>
          simp [band_lookup, argmaxB, hb, hm]

/-- get_dl_bitrate on a one-element batch with sane configuration. -/
theorem get_dl_bitrate_singleton (c : Cfg) (hbw : c.bw ≠ 0)
    (h1 : c.tbl_L850 ≠ []) (h2 : c.tbl_L1800 ≠ []) (h3 : c.tbl_L2600 ≠ [])
    (d : EVal) :
    get_dl_bitrate c [d] = .ok [dl_bitrate_at c d] := by
  unfold get_dl_bitrate
  rw [if_neg hbw, if_neg]
  · rfl
  · rintro ⟨-, h | h | h⟩
    · exact h1 h
    · exact h2 h
    · exact h3 h

/-- poiddatareq on a one-element batch with sane configuration. -/
theorem poiddatareq_singleton (c : Cfg) (hnrb : c.nrb ≠ 0)
    (h1 : c.tbl_L850 ≠ []) (h2 : c.tbl_L1800 ≠ []) (h3 : c.tbl_L2600 ≠ [])
    (d : EVal) :
    poiddatareq c [d] =
      [if EVal.ble d (.fin c.max_radius)
       then (EVal.fin (c.dlthtarg * 1024)).div
              ((dl_bitrate_at c d).div (.fin c.avrbpdsch))
       else .inf] := by
  have hbw : c.bw ≠ 0 := by
    intro h
    exact hnrb (by simp [Cfg.nrb, h])
  unfold poiddatareq
  rw [if_neg hnrb, get_dl_bitrate_singleton c hbw h1 h2 h3]
  rfl

/-- getD through a map, for an in-bounds index. -/
theorem getD_map {α β : Type} (f : α → β) (l : List α) (i : ℕ)
    (hi : i < l.length) (da : α) (db : β) :
    (l.map f).getD i db = f (l.getD i da) := by
  induction l generalizing i with
  | nil => simp at hi
  | cons a t ih =>
      cases i with
      | zero => simp [List.getD]
      | succ n =>
          simp only [List.map_cons, List.getD_cons_succ]
          exact ih n (by simpa using hi)

/-- getD through the zip-with-its-own-map-then-map shape used by
poiddatareq, for an in-bounds index. -/
theorem zipmap_getD (f : EVal → EVal) (g : EVal × EVal → EVal)
    (ds : List EVal) (i : ℕ) (hi : i < ds.length) :
    ((ds.zip (ds.map f)).map g).getD i .nan =
      g (ds.getD i (.fin 0), f (ds.getD i (.fin 0))) := by
  induction ds generalizing i with
  | nil => simp at hi
  | cons a t ih =>
      cases i with
      | zero => simp [List.getD]
      | succ n =>
          simp only [List.map_cons, List.zip_cons_cons, List.getD_cons_succ]
          exact ih n (by simpa using hi)

/-- poiddatareq always yields a full-length result: one value per input
distance, whatever the configuration and tables (never raises for the
caller). -/
theorem poiddatareq_length (c : Cfg) (d : List EVal) :
    (poiddatareq c d).length = d.length := by
  unfold poiddatareq
  split
  · simp
  · split
    · simp
    · next dl heq =>
        have hdl : dl.length = d.length := by
          unfold get_dl_bitrate at heq
          split at heq
          · exact absurd heq (by simp)
          · split at heq
            · exact absurd heq (by simp)
            · simp only [Except.ok.injEq] at heq
              simp [← heq]
        simp [List.length_zip, hdl]

/-- When nrb is nonzero and every band table is nonempty, poiddatareq
reduces at each in-bounds position to the guarded formula: the
target-over-bitrate quotient when the distance passes d ≤ max_radius,
inf otherwise. -/
theorem poiddatareq_ok_getD (c : Cfg) (ds : List EVal)
    (hnrb : c.nrb ≠ 0)
    (h1 : c.tbl_L850 ≠ []) (h2 : c.tbl_L1800 ≠ []) (h3 : c.tbl_L2600 ≠ [])
    (i : ℕ) (hi : i < ds.length) :
    (poiddatareq c ds).getD i .nan =
      (if EVal.ble (ds.getD i (.fin 0)) (.fin c.max_radius)
       then (EVal.fin (c.dlthtarg * 1024)).div
              ((dl_bitrate_at c (ds.getD i (.fin 0))).div (EVal.fin c.avrbpdsch))
       else .inf) := by
  have hbw : c.bw ≠ 0 := by
    intro h
    exact hnrb (by simp [Cfg.nrb, h])
  have hok : get_dl_bitrate c ds = .ok (ds.map (dl_bitrate_at c)) := by
    unfold get_dl_bitrate
    rw [if_neg hbw, if_neg]
    rintro ⟨-, h | h | h⟩
    · exact h1 h
    · exact h2 h
    · exact h3 h
  unfold poiddatareq
  rw [if_neg hnrb, hok]
  exact zipmap_getD (dl_bitrate_at c)
    (fun p => if EVal.ble p.1 (EVal.fin c.max_radius)
      then (EVal.fin (c.dlthtarg * 1024)).div (p.2.div (EVal.fin c.avrbpdsch))
      else .inf) ds i hi

/-! ### C1: the spec's worked scenario -/

/-- The scenario's band tables are nonempty and its bandwidth figures are
nonzero, whatever max_radius is chosen. -/
theorem cfgScn_sane (mr : ℚ) :
    (cfgScn mr).bw ≠ 0 ∧ (cfgScn mr).nrb ≠ 0 ∧
    (cfgScn mr).tbl_L850 ≠ [] ∧ (cfgScn mr).tbl_L1800 ≠ [] ∧
    (cfgScn mr).tbl_L2600 ≠ [] := by
  refine ⟨by norm_num [Cfg.bw, cfgScn], by norm_num [Cfg.nrb, Cfg.bw, cfgScn],
    ?_, ?_, ?_⟩ <;> simp [cfgScn, tblL850_scn, tblL1800_scn, tblL2600_scn]

/-- At the scenario configuration the weighted bitrate at 1500 m is
29000/3 kbps: the bands contribute 20000 (L850, breakpoint 2 km), 8000
(L1800, breakpoint 3 km) and 1000 kbps (L2600, breakpoint 2 km), each at
weight 1/3. -/
theorem dl_scn_1500 (mr : ℚ) :
    dl_bitrate_at (cfgScn mr) (.fin 1500) = .fin (29000 / 3) := by
  simp only [dl_bitrate_at, cfgScn, tblL850_scn, tblL1800_scn, tblL2600_scn, Cfg.bw]
  norm_num [band_lookup_cons, band_lookup_nil, EVal.bge_fin_fin,
    EVal.div_fin_fin, EVal.mul_fin_fin, EVal.add_fin_fin, decide_eq_true_eq]

/-- C1, counterexample: with the scenario configuration (bandwidths
10/10/10 MHz, the three band tables of the spec, cco = 10 %,
rb_num_multiplier = 5, dlthtarg = 5 Mbps, max_radius = 2000 m), the code
returns get_dl_bitrate([1500]) = 29000/3 ≈ 9666.67 kbps — not the
claimed 15000 kbps — and poiddatareq([1500]) = 4608/145 ≈ 31.78 RB, not
the claimed 20.48 RB.  At 1.5 km the first qualifying breakpoint of
L1800 is 3 km whose paired bitrate is 8000 kbps (not 15000), and of
L2600 is 2 km whose paired bitrate is 1000 kbps (not 10000). -/
theorem C1_counterexample :
    get_dl_bitrate (cfgScn 2000) [.fin 1500] = .ok [.fin (29000 / 3)] ∧
    (29000 / 3 : ℚ) ≠ 15000 ∧
    poiddatareq (cfgScn 2000) [.fin 1500] = [.fin (4608 / 145)] ∧
    (4608 / 145 : ℚ) ≠ 512 / 25 := by
  obtain ⟨hbw, hnrb, h1, h2, h3⟩ := cfgScn_sane 2000
  refine ⟨?_, by norm_num, ?_, by norm_num⟩
  · rw [get_dl_bitrate_singleton _ hbw h1 h2 h3, dl_scn_1500]
  · rw [poiddatareq_singleton _ hnrb h1 h2 h3, dl_scn_1500]
    have hle : EVal.ble (.fin 1500) (.fin (cfgScn 2000).max_radius) = true := by
      norm_num [EVal.ble_fin_fin, cfgScn]
    rw [hle]
    have havrb : (cfgScn 2000).avrbpdsch = 60 := by
      norm_num [Cfg.avrbpdsch, Cfg.nrb, Cfg.bw, cfgScn]
    have hdlt : (cfgScn 2000).dlthtarg = 5 := rfl
    rw [havrb, hdlt]
    norm_num [EVal.div_fin_fin]

/-- C1, amended: for the scenario configuration with any max_radius of
at least 1500 m, nrb = 150 and avrbpdsch = 60 as claimed, but
get_dl_bitrate([1500]) = 29000/3 kbps (the bands contribute 20000, 8000
and 1000 kbps at weight 1/3 each) and poiddatareq([1500]) = 4608/145
resource blocks. -/
theorem C1_amended (mr : ℚ) (h : (1500 : ℚ) ≤ mr) :
    (cfgScn mr).nrb = 150 ∧ (cfgScn mr).avrbpdsch = 60 ∧
    get_dl_bitrate (cfgScn mr) [.fin 1500] = .ok [.fin (29000 / 3)] ∧
    poiddatareq (cfgScn mr) [.fin 1500] = [.fin (4608 / 145)] := by
  obtain ⟨hbw, hnrb, h1, h2, h3⟩ := cfgScn_sane mr
  refine ⟨by norm_num [Cfg.nrb, Cfg.bw, cfgScn],
          by norm_num [Cfg.avrbpdsch, Cfg.nrb, Cfg.bw, cfgScn], ?_, ?_⟩
  · rw [get_dl_bitrate_singleton _ hbw h1 h2 h3, dl_scn_1500]
  · rw [poiddatareq_singleton _ hnrb h1 h2 h3, dl_scn_1500]
    have hle : EVal.ble (.fin 1500) (.fin (cfgScn mr).max_radius) = true := by
      simp only [cfgScn, EVal.ble_fin_fin]
      exact decide_eq_true h
    rw [hle]
    have havrb : (cfgScn mr).avrbpdsch = 60 := by
      norm_num [Cfg.avrbpdsch, Cfg.nrb, Cfg.bw, cfgScn]
    have hdlt : (cfgScn mr).dlthtarg = 5 := rfl
    rw [havrb, hdlt]
    norm_num [EVal.div_fin_fin]

/-- C1, witness: the amended statement instantiated at max_radius
2000 m. -/
theorem C1_witness :
    (cfgScn 2000).nrb = 150 ∧ (cfgScn 2000).avrbpdsch = 60 ∧
    get_dl_bitrate (cfgScn 2000) [.fin 1500] = .ok [.fin (29000 / 3)] ∧
    poiddatareq (cfgScn 2000) [.fin 1500] = [.fin (4608 / 145)] :=
  C1_amended 2000 (by norm_num)

/-! ### C2: unserviceability beyond max_radius -/

/-- The weighted bitrate of the zero-bitrate configuration at 1000 m is
exactly zero. -/
theorem dl_zerobr_1000 : dl_bitrate_at cfgZeroBr (.fin 1000) = .fin 0 := by
  simp only [dl_bitrate_at, cfgZeroBr, Cfg.bw]
  norm_num [band_lookup_cons, band_lookup_nil, EVal.bge_fin_fin,
    EVal.div_fin_fin, EVal.mul_fin_fin, EVal.add_fin_fin, decide_eq_true_eq]

/-- C2, counterexample: with band tables holding a zero bitrate at the
2 km breakpoint, the distance 1000 m lies within max_radius = 2000 m
(so d > max_radius is false), yet poiddatareq returns +inf at that
position: the looked-up bitrate 0 makes the python division produce inf.
Hence poiddatareq does not return +inf at exactly the positions with
d > max_radius for every table content. -/
theorem C2_counterexample :
    poiddatareq cfgZeroBr [.fin 1000] = [.inf] ∧
    EVal.bgt (.fin 1000) (.fin cfgZeroBr.max_radius) = false := by
  have hnrb : cfgZeroBr.nrb ≠ 0 := by norm_num [Cfg.nrb, Cfg.bw, cfgZeroBr]
  have h1 : cfgZeroBr.tbl_L850 ≠ [] := by simp [cfgZeroBr]
  have h2 : cfgZeroBr.tbl_L1800 ≠ [] := by simp [cfgZeroBr]
  have h3 : cfgZeroBr.tbl_L2600 ≠ [] := by simp [cfgZeroBr]
  constructor
  · rw [poiddatareq_singleton _ hnrb h1 h2 h3, dl_zerobr_1000]
    have hle : EVal.ble (.fin 1000) (.fin cfgZeroBr.max_radius) = true := by
      norm_num [EVal.ble_fin_fin, cfgZeroBr]
    rw [hle]
    have havrb : cfgZeroBr.avrbpdsch = 60 := by
      norm_num [Cfg.avrbpdsch, Cfg.nrb, Cfg.bw, cfgZeroBr]
    have hdlt : cfgZeroBr.dlthtarg = 5 := rfl
    rw [havrb, hdlt]
    have hz : (EVal.fin 0).div (.fin 60) = .fin 0 := by
      norm_num [EVal.div_fin_fin]
    rw [hz]
    norm_num [EVal.div_fin_zero_pos]
  · norm_num [EVal.bgt_fin_fin, cfgZeroBr]

/-- C2, amended: poiddatareq never raises — the caller always receives
one value per input distance — and, provided nrb ≠ 0 and each band table
is nonempty, it returns +inf at every position whose distance fails the
d ≤ max_radius test; every d > max_radius fails that test (so all such
positions get +inf), but within-range positions can also receive +inf
(zero looked-up bitrate, as in the counterexample), a nan distance also
fails the test, and with an empty band table the internal lookup error is
caught and every position gets nan instead. -/
theorem C2_amended (c : Cfg) (ds : List EVal) :
    (poiddatareq c ds).length = ds.length ∧
    (c.nrb ≠ 0 → c.tbl_L850 ≠ [] → c.tbl_L1800 ≠ [] → c.tbl_L2600 ≠ [] →
      ∀ i, i < ds.length →
        EVal.ble (ds.getD i (.fin 0)) (.fin c.max_radius) = false →
        (poiddatareq c ds).getD i .nan = .inf) ∧
    (∀ a : EVal, EVal.bgt a (.fin c.max_radius) = true →
        EVal.ble a (.fin c.max_radius) = false) := by
  refine ⟨poiddatareq_length c ds, ?_, ?_⟩
  · intro hnrb h1 h2 h3 i hi hble
    rw [poiddatareq_ok_getD c ds hnrb h1 h2 h3 i hi, hble]
    simp
  · intro a ha
    cases a with
    | nan => rw [EVal.bgt_nan_left] at ha; exact absurd ha (by simp)
    | inf => rfl
    | ninf => exact absurd ha (by simp [EVal.bgt])
    | fin q =>
        rw [EVal.bgt_fin_fin] at ha
        rw [EVal.ble_fin_fin]
        simp only [decide_eq_true_eq] at ha
        simp [not_le.2 ha]

/-- C2, witness: the amended statement applied at the scenario
configuration with max_radius 2000 m and the single distance 3000 m. -/
theorem C2_witness :
    (poiddatareq (cfgScn 2000) [.fin 3000]).getD 0 .nan = .inf := by
  obtain ⟨hbw, hnrb, h1, h2, h3⟩ := cfgScn_sane 2000
  exact (C2_amended (cfgScn 2000) [.fin 3000]).2.1 hnrb h1 h2 h3 0 (by simp)
    (by norm_num [EVal.ble_fin_fin, cfgScn])

/-! ### C10: nan distances take the beyond-max_radius branch -/

/-- C10: at every in-bounds position whose distance is nan, poiddatareq
returns +inf (not nan), because the nan distance fails the
d ≤ max_radius comparison and is handled by the beyond-max_radius branch
(provided the call succeeds at all: nrb ≠ 0 and nonempty band tables). -/
theorem C10_nan_distance (c : Cfg) (ds : List EVal) (i : ℕ)
    (hi : i < ds.length) (hnrb : c.nrb ≠ 0)
    (h1 : c.tbl_L850 ≠ []) (h2 : c.tbl_L1800 ≠ []) (h3 : c.tbl_L2600 ≠ [])
    (hd : ds.getD i (.fin 0) = .nan) :
    (poiddatareq c ds).getD i .nan = .inf ∧
    EVal.ble .nan (.fin c.max_radius) = false := by
  refine ⟨?_, EVal.ble_nan_left _⟩
  rw [poiddatareq_ok_getD c ds hnrb h1 h2 h3 i hi, hd, EVal.ble_nan_left]
  simp

/-- C10, witness: the scenario configuration with a single nan distance
receives an infinite resource-block requirement. -/
theorem C10_witness :
    (poiddatareq (cfgScn 2000) [.nan]).getD 0 .nan = .inf := by
  obtain ⟨hbw, hnrb, h1, h2, h3⟩ := cfgScn_sane 2000
  exact (C10_nan_distance (cfgScn 2000) [.nan] 0 (by simp) hnrb h1 h2 h3 rfl).1

/-! ### C3: broadcasting and size validation -/

/-- Length of a broadcast over equal-length inputs. -/
theorem broadcast2_length {α : Type} (f : EVal → EVal → α) (a b : List EVal)
    (h : a.length = b.length) : (broadcast2 f a b).length = b.length := by
  by_cases h1 : a.length = 1
  · simp [broadcast2, h1]
  · by_cases h2 : b.length = 1
    · simp [broadcast2, h1, h2, h]
    · simp [broadcast2, h1, h2, h]

/-- C3, counterexample: upoprbu and cellavcap reject an array first
argument paired with a size-1 (scalar) second argument — the size check
inspects only the first argument — so they do not accept a scalar paired
with an array in either position as claimed, and they raise in a case
where the two arguments are not both non-scalar arrays of different
lengths. -/
theorem C3_counterexample :
    upoprbu [.fin 1, .fin 2] [.fin 5] = .error () ∧
    cellavcap [.fin 1, .fin 2] [.fin 5] = .error () ∧
    ([EVal.fin 5].length = 1) :=
  ⟨rfl, rfl, rfl⟩

/-- C3, amended: upoprbu and cellavcap raise exactly when their first
argument is neither scalar (size 1) nor of the second's length — in
particular an array first argument with a scalar second raises — while a
scalar first argument broadcasts to one value per element of the second;
only sufcapch accepts a scalar in either position, raising exactly when
both arguments are non-scalar of different lengths. -/
theorem C3_amended :
    (∀ a b : List EVal,
      (upoprbu a b = .error () ↔ a.length ≠ 1 ∧ a.length ≠ b.length) ∧
      (a.length = 1 →
        upoprbu a b = .ok (b.map (fun y => (a.headD .nan).div y))) ∧
      (a.length = b.length →
        ∃ l, upoprbu a b = .ok l ∧ l.length = b.length)) ∧
    (∀ a b : List EVal,
      (cellavcap a b = .error () ↔ a.length ≠ 1 ∧ a.length ≠ b.length) ∧
      (a.length = 1 →
        cellavcap a b = .ok (b.map (fun y => (a.headD .nan).sub y)))) ∧
    (∀ a b : List EVal,
      (sufcapch a b = .error () ↔
        a.length ≠ 1 ∧ b.length ≠ 1 ∧ a.length ≠ b.length) ∧
      (a.length = 1 →
        sufcapch a b = .ok (b.map (fun y => (a.headD .nan).bgt y))) ∧
      (b.length = 1 → a.length ≠ 1 →
        sufcapch a b = .ok (a.map (fun x => x.bgt (b.headD .nan))))) := by
  refine ⟨fun a b => ⟨?_, ?_, ?_⟩, fun a b => ⟨?_, ?_⟩, fun a b => ⟨?_, ?_, ?_⟩⟩
  · by_cases hc : a.length ≠ 1 ∧ a.length ≠ b.length
    · simp [upoprbu, hc]
    · simp only [upoprbu, if_neg hc]
      simp [hc]
  · intro h1
    have hc : ¬(a.length ≠ 1 ∧ a.length ≠ b.length) := by simp [h1]
    simp [upoprbu, hc, broadcast2, h1]
  · intro he
    have hc : ¬(a.length ≠ 1 ∧ a.length ≠ b.length) := by simp [he]
    exact ⟨broadcast2 EVal.div a b, by simp [upoprbu, hc], broadcast2_length _ a b he⟩
  · by_cases hc : a.length ≠ 1 ∧ a.length ≠ b.length
    · simp [cellavcap, hc]
    · simp only [cellavcap, if_neg hc]
      simp [hc]
  · intro h1
    have hc : ¬(a.length ≠ 1 ∧ a.length ≠ b.length) := by simp [h1]
    simp [cellavcap, hc, broadcast2, h1]
  · by_cases hc : a.length ≠ 1 ∧ b.length ≠ 1 ∧ a.length ≠ b.length
    · simp [sufcapch, hc]
    · simp only [sufcapch, if_neg hc]
      simp [hc]
  · intro h1
    have hc : ¬(a.length ≠ 1 ∧ b.length ≠ 1 ∧ a.length ≠ b.length) := by simp [h1]
    simp [sufcapch, hc, broadcast2, h1]
  · intro hb1 ha1
    have hc : ¬(a.length ≠ 1 ∧ b.length ≠ 1 ∧ a.length ≠ b.length) := by simp [hb1]
    simp [sufcapch, hc, broadcast2, ha1, hb1]

/-- C3, witness: a scalar first argument of upoprbu broadcasts over a
two-element array, and sufcapch broadcasts a scalar second argument over
a two-element first argument. -/
theorem C3_witness :
    upoprbu [.fin 6] [.fin 2, .fin 3] = .ok [.fin 3, .fin 2] ∧
    sufcapch [.fin 1, .fin 7] [.fin 5] = .ok [false, true] := by
  constructor
  · rw [(C3_amended.1 [.fin 6] [.fin 2, .fin 3]).2.1 rfl]
    norm_num [EVal.div_fin_fin]
  · rw [(C3_amended.2.2 [.fin 1, .fin 7] [.fin 5]).2.2 rfl (by simp)]
    norm_num [EVal.bgt_fin_fin]

/-! ### C5: per-band step-function selection -/

/-- C5: for any band table and queried distance (km), the band lookup of
get_dl_bitrate returns the bitrate of the first table entry whose
breakpoint compares ≥ the distance — an entry qualifies while every
earlier entry does not — and returns nan when no entry qualifies. -/
theorem C5_first_breakpoint (tbl : BandTable) (d : EVal) :
    (∀ i, i < tbl.length →
      EVal.bge (tbl.getD i (.nan, .nan)).1 d = true →
      (∀ j, j < i → EVal.bge (tbl.getD j (.nan, .nan)).1 d = false) →
      band_lookup tbl d = (tbl.getD i (.nan, .nan)).2) ∧
    ((∀ j, j < tbl.length → EVal.bge (tbl.getD j (.nan, .nan)).1 d = false) →
      band_lookup tbl d = .nan) := by
  induction tbl with
  | nil =>
      exact ⟨fun i hi => absurd hi (by simp), fun _ => rfl⟩
  | cons p t ih =>
      constructor
      · intro i hi hq hprev
        cases i with
        | zero =>
            rw [band_lookup_cons]
            simp only [List.getD_cons_zero] at hq ⊢
            rw [hq]
            simp
        | succ n =>
            have h0 : EVal.bge p.1 d = false := by
              simpa using hprev 0 (Nat.succ_pos n)
            rw [band_lookup_cons, h0]
            simp only [List.getD_cons_succ]
            simp only [Bool.false_eq_true, if_false]
            exact ih.1 n (by simpa using hi) (by simpa using hq)
              (fun j hj => by simpa using hprev (j + 1) (by omega))
      · intro hall
        have h0 : EVal.bge p.1 d = false := by simpa using hall 0 (by simp)
        rw [band_lookup_cons, h0]
        simp only [Bool.false_eq_true, if_false]
        exact ih.2 (fun j hj => by simpa using hall (j + 1) (by simpa using hj))

/-- C5, witness: at 1.5 km the L1800 table's first qualifying entry is
its second (breakpoint 3 km), whose bitrate 8000 kbps is returned; a
one-entry table whose breakpoint 1 km is below the distance 2 km yields
nan. -/
theorem C5_witness :
    band_lookup tblL1800_scn (.fin (3 / 2)) = (tblL1800_scn.getD 1 (.nan, .nan)).2 ∧
    band_lookup [(EVal.fin 1, EVal.fin 15000)] (.fin 2) = .nan := by
  constructor
  · refine (C5_first_breakpoint tblL1800_scn (.fin (3 / 2))).1 1
      (by simp [tblL1800_scn]) ?_ ?_
    · norm_num [tblL1800_scn, EVal.bge_fin_fin]
    · intro j hj
      have hj0 : j = 0 := by omega
      subst hj0
      norm_num [tblL1800_scn, EVal.bge_fin_fin]
  · refine (C5_first_breakpoint _ _).2 ?_
    intro j hj
    have hj0 : j = 0 := by simpa using hj
    subst hj0
    norm_num [EVal.bge_fin_fin]

/-! ### C4: nan propagation through the weighted sum -/

/-- C4: whenever at least one band's lookup yields nan at a queried
distance, the bandwidth-share-weighted sum of get_dl_bitrate at that
distance is nan: the nan band is multiplied by its weight (nan) and
added (nan), never replaced by zero, and no renormalization of the other
weights occurs. -/
theorem C4_nan_propagation (c : Cfg) (d : EVal)
    (hbw : c.bw ≠ 0)
    (h1 : c.tbl_L850 ≠ []) (h2 : c.tbl_L1800 ≠ []) (h3 : c.tbl_L2600 ≠ [])
    (h : band_lookup c.tbl_L850 (d.div (.fin 1000)) = .nan ∨
         band_lookup c.tbl_L1800 (d.div (.fin 1000)) = .nan ∨
         band_lookup c.tbl_L2600 (d.div (.fin 1000)) = .nan) :
    dl_bitrate_at c d = .nan ∧ get_dl_bitrate c [d] = .ok [.nan] := by
  have hdl : dl_bitrate_at c d = .nan := by
    simp only [dl_bitrate_at]
    rcases h with h | h | h
    · rw [h, EVal.nan_mul, EVal.nan_add, EVal.nan_add]
    · rw [h, EVal.nan_mul, EVal.add_nan, EVal.nan_add]
    · rw [h, EVal.nan_mul, EVal.add_nan]
  exact ⟨hdl, by rw [get_dl_bitrate_singleton c hbw h1 h2 h3, hdl]⟩

/-- C4, witness: at 20 km the L850 table (breakpoints up to 10 km) is out
of range, so the whole weighted sum at the scenario configuration is
nan, though L1800 is also out of range and L2600 too — the single
undefined band already suffices by the theorem. -/
theorem C4_witness :
    dl_bitrate_at (cfgScn 2000) (.fin 20000) = .nan ∧
    get_dl_bitrate (cfgScn 2000) [.fin 20000] = .ok [.nan] := by
  obtain ⟨hbw, hnrb, h1, h2, h3⟩ := cfgScn_sane 2000
  refine C4_nan_propagation (cfgScn 2000) (.fin 20000) hbw h1 h2 h3 (Or.inl ?_)
  have hdiv : (EVal.fin 20000).div (.fin 1000) = .fin 20 := by
    norm_num [EVal.div_fin_fin]
  rw [hdiv]
  show band_lookup tblL850_scn (.fin 20) = .nan
  norm_num [tblL850_scn, band_lookup_cons, band_lookup_nil, EVal.bge_fin_fin]

/-! ### C6: monotonicity in distance -/

theorem embedTbl_ne_nil {t : List (ℚ × ℚ)} (p : ℚ × ℚ) (hp : p ∈ t) :
    embedTbl t ≠ [] := by
  cases t with
  | nil => simp at hp
  | cons q l => simp [embedTbl]

/-- When some breakpoint of the table is ≥ the queried distance, the band
lookup returns the bitrate of some qualifying entry (a finite value). -/
theorem band_lookup_in_range (t : List (ℚ × ℚ)) (d : ℚ)
    (h : ∃ p ∈ t, d ≤ p.1) :
    ∃ p ∈ t, band_lookup (embedTbl t) (.fin d) = .fin p.2 ∧ d ≤ p.1 := by
  induction t with
  | nil => simp at h
  | cons q t ih =>
      have hcons : embedTbl (q :: t) = (EVal.fin q.1, EVal.fin q.2) :: embedTbl t := rfl
      by_cases hq : d ≤ q.1
      · refine ⟨q, by simp, ?_, hq⟩
        rw [hcons, band_lookup_cons]
        simp [EVal.bge_fin_fin, hq]
      · have h' : ∃ p ∈ t, d ≤ p.1 := by
          rcases h with ⟨p, hp, hdp⟩
          rcases List.mem_cons.1 hp with rfl | hp'
          · exact absurd hdp hq
          · exact ⟨p, hp', hdp⟩
        obtain ⟨p, hp, hlk, hd⟩ := ih h'
        refine ⟨p, by simp [hp], ?_, hd⟩
        rw [hcons, band_lookup_cons]
        simp [EVal.bge_fin_fin, hq, hlk]

/-- Monotonicity of one band's lookup: with non-increasing bitrates along
the table, a larger distance (still within the table's range) receives a
bitrate no larger than a smaller distance's. -/
theorem band_lookup_mono (t : List (ℚ × ℚ))
    (hbr : t.Pairwise (fun p q => q.2 ≤ p.2))
    (d1 d2 : ℚ) (h12 : d1 ≤ d2) (hr : ∃ p ∈ t, d2 ≤ p.1) :
    ∃ b1 b2, band_lookup (embedTbl t) (.fin d1) = .fin b1 ∧
      band_lookup (embedTbl t) (.fin d2) = .fin b2 ∧ b2 ≤ b1 := by
  induction t with
  | nil => simp at hr
  | cons q t ih =>
      have hcons : embedTbl (q :: t) = (EVal.fin q.1, EVal.fin q.2) :: embedTbl t := rfl
      by_cases h2q : d2 ≤ q.1
      · have h1q : d1 ≤ q.1 := le_trans h12 h2q
        refine ⟨q.2, q.2, ?_, ?_, le_refl _⟩ <;>
          · rw [hcons, band_lookup_cons]
            simp [EVal.bge_fin_fin, h1q, h2q]
      · have hr' : ∃ p ∈ t, d2 ≤ p.1 := by
          rcases hr with ⟨p, hp, hdp⟩
          rcases List.mem_cons.1 hp with rfl | hp'
          · exact absurd hdp h2q
          · exact ⟨p, hp', hdp⟩
        by_cases h1q : d1 ≤ q.1
        · obtain ⟨p, hp, hlk, hd⟩ := band_lookup_in_range t d2 hr'
          refine ⟨q.2, p.2, ?_, ?_, (List.pairwise_cons.1 hbr).1 p hp⟩
          · rw [hcons, band_lookup_cons]
            simp [EVal.bge_fin_fin, h1q]
          · rw [hcons, band_lookup_cons]
            simp [EVal.bge_fin_fin, h2q, hlk]
        · obtain ⟨b1, b2, hb1, hb2, hle⟩ := ih (List.pairwise_cons.1 hbr).2 hr'
          refine ⟨b1, b2, ?_, ?_, hle⟩
          · rw [hcons, band_lookup_cons]
            simp [EVal.bge_fin_fin, h1q, hb1]
          · rw [hcons, band_lookup_cons]
            simp [EVal.bge_fin_fin, h2q, hb2]

/-- The weighted sum at a distance whose three band lookups are finite. -/
theorem dl_bitrate_at_fin (c : Cfg) (hbw : c.bw ≠ 0) (d : ℚ)
    (b1 b2 b3 : ℚ)
    (e1 : band_lookup c.tbl_L850 (.fin (d / 1000)) = .fin b1)
    (e2 : band_lookup c.tbl_L1800 (.fin (d / 1000)) = .fin b2)
    (e3 : band_lookup c.tbl_L2600 (.fin (d / 1000)) = .fin b3) :
    dl_bitrate_at c (.fin d) = .fin (b1 * (c.bw_L850 / c.bw) +
      b2 * (c.bw_L1800 / c.bw) + b3 * (c.bw_L2600 / c.bw)) := by
  simp only [dl_bitrate_at]
  rw [EVal.div_fin_fin d 1000 (by norm_num), e1, e2, e3,
    EVal.div_fin_fin _ _ hbw, EVal.div_fin_fin _ _ hbw, EVal.div_fin_fin _ _ hbw,
    EVal.mul_fin_fin, EVal.mul_fin_fin, EVal.mul_fin_fin,
    EVal.add_fin_fin, EVal.add_fin_fin]

/-- C6: for band tables with non-increasing bitrates, nonnegative band
bandwidths with positive total, and two distances d1 ≤ d2 (meters)
within every table's range, the per-band lookup is non-increasing
(shown for the first band; the lemma applies to each) and the weighted
sum returned by get_dl_bitrate is non-increasing as well. -/
theorem C6_monotonicity
    (t1 t2 t3 : List (ℚ × ℚ)) (bw1 bw2 bw3 cco mult dlth mr : ℚ)
    (hb1 : 0 ≤ bw1) (hb2 : 0 ≤ bw2) (hb3 : 0 ≤ bw3)
    (hbw : 0 < bw1 + bw2 + bw3)
    (m1 : t1.Pairwise (fun p q => q.2 ≤ p.2))
    (m2 : t2.Pairwise (fun p q => q.2 ≤ p.2))
    (m3 : t3.Pairwise (fun p q => q.2 ≤ p.2))
    (d1 d2 : ℚ) (h12 : d1 ≤ d2)
    (r1 : ∃ p ∈ t1, d2 / 1000 ≤ p.1)
    (r2 : ∃ p ∈ t2, d2 / 1000 ≤ p.1)
    (r3 : ∃ p ∈ t3, d2 / 1000 ≤ p.1) :
    (∃ b1 b2, band_lookup (embedTbl t1) (.fin (d1 / 1000)) = .fin b1 ∧
       band_lookup (embedTbl t1) (.fin (d2 / 1000)) = .fin b2 ∧ b2 ≤ b1) ∧
    (∃ v1 v2,
       get_dl_bitrate ⟨bw1, bw2, bw3, cco, mult, dlth, mr,
         embedTbl t1, embedTbl t2, embedTbl t3⟩ [.fin d1, .fin d2] =
         .ok [.fin v1, .fin v2] ∧ v2 ≤ v1) := by
  have h12k : d1 / 1000 ≤ d2 / 1000 := by linarith
  obtain ⟨b11, b12, e11, e12, le1⟩ := band_lookup_mono t1 m1 _ _ h12k r1
  obtain ⟨b21, b22, e21, e22, le2⟩ := band_lookup_mono t2 m2 _ _ h12k r2
  obtain ⟨b31, b32, e31, e32, le3⟩ := band_lookup_mono t3 m3 _ _ h12k r3
  refine ⟨⟨b11, b12, e11, e12, le1⟩, ?_⟩
  set c : Cfg := ⟨bw1, bw2, bw3, cco, mult, dlth, mr,
    embedTbl t1, embedTbl t2, embedTbl t3⟩ with hc
  have hbw0 : c.bw ≠ 0 := by
    show bw1 + bw2 + bw3 ≠ 0
    exact ne_of_gt hbw
  obtain ⟨p1, hp1, -⟩ := r1
  obtain ⟨p2, hp2, -⟩ := r2
  obtain ⟨p3, hp3, -⟩ := r3
  have hok : get_dl_bitrate c [.fin d1, .fin d2] =
      .ok [dl_bitrate_at c (.fin d1), dl_bitrate_at c (.fin d2)] := by
    unfold get_dl_bitrate
    rw [if_neg hbw0, if_neg]
    · rfl
    · rintro ⟨-, h | h | h⟩
      · exact embedTbl_ne_nil p1 hp1 h
      · exact embedTbl_ne_nil p2 hp2 h
      · exact embedTbl_ne_nil p3 hp3 h
  have hS : c.bw = bw1 + bw2 + bw3 := rfl
  have w1 : (0 : ℚ) ≤ bw1 / (bw1 + bw2 + bw3) := div_nonneg hb1 hbw.le
  have w2 : (0 : ℚ) ≤ bw2 / (bw1 + bw2 + bw3) := div_nonneg hb2 hbw.le
  have w3 : (0 : ℚ) ≤ bw3 / (bw1 + bw2 + bw3) := div_nonneg hb3 hbw.le
  refine ⟨b11 * (bw1 / (bw1 + bw2 + bw3)) + b21 * (bw2 / (bw1 + bw2 + bw3)) +
            b31 * (bw3 / (bw1 + bw2 + bw3)),
          b12 * (bw1 / (bw1 + bw2 + bw3)) + b22 * (bw2 / (bw1 + bw2 + bw3)) +
            b32 * (bw3 / (bw1 + bw2 + bw3)), ?_, ?_⟩
  · rw [hok, dl_bitrate_at_fin c hbw0 d1 b11 b21 b31 e11 e21 e31,
      dl_bitrate_at_fin c hbw0 d2 b12 b22 b32 e12 e22 e32]
    rfl
  · exact add_le_add (add_le_add (mul_le_mul_of_nonneg_right le1 w1)
      (mul_le_mul_of_nonneg_right le2 w2)) (mul_le_mul_of_nonneg_right le3 w3)

/-- C6, witness: the monotonicity statement at the scenario tables with
bandwidths 10/10/10 MHz and the distance pair 1500 m ≤ 1800 m. -/
theorem C6_witness :
    (∃ b1 b2, band_lookup (embedTbl tQ850) (.fin (1500 / 1000)) = .fin b1 ∧
       band_lookup (embedTbl tQ850) (.fin (1800 / 1000)) = .fin b2 ∧ b2 ≤ b1) ∧
    (∃ v1 v2,
       get_dl_bitrate ⟨10, 10, 10, 10, 5, 5, 2000,
         embedTbl tQ850, embedTbl tQ1800, embedTbl tQ2600⟩
         [.fin 1500, .fin 1800] = .ok [.fin v1, .fin v2] ∧ v2 ≤ v1) :=
  C6_monotonicity tQ850 tQ1800 tQ2600 10 10 10 10 5 5 2000
    (by norm_num) (by norm_num) (by norm_num) (by norm_num)
    (by norm_num [tQ850, List.pairwise_cons])
    (by norm_num [tQ1800, List.pairwise_cons])
    (by norm_num [tQ2600, List.pairwise_cons])
    1500 1800 (by norm_num)
    ⟨(2, 20000), by simp [tQ850], by norm_num⟩
    ⟨(3, 8000), by simp [tQ1800], by norm_num⟩
    ⟨(2, 1000), by simp [tQ2600], by norm_num⟩

/-! ### C7: ring radius labels -/

theorem ringLabels_nil_of_lt (mn mx step : ℤ) (h : mx < mn) :
    ringLabels mn mx step = [] := by
  simp [ringLabels, h]

/-- Every generated label lies on the arithmetic progression starting at
min_radius with the given step. -/
theorem mem_ringLabels_exists (mn mx step : ℤ) (l : ℤ)
    (h : l ∈ ringLabels mn mx step) : ∃ k : ℕ, l = mn + k * step := by
  unfold ringLabels at h
  split at h
  · simp at h
  · simp only [List.mem_map, List.mem_range] at h
    obtain ⟨k, -, hk⟩ := h
    exact ⟨k, hk.symm⟩

/-- When the step divides the range evenly, the labels are exactly the
arithmetic sequence from min_radius to max_radius. -/
theorem ringLabels_arith (mn mx step : ℤ) (hstep : 0 < step)
    (hle : mn ≤ mx) (hdvd : step ∣ (mx - mn)) :
    (∀ l : ℤ, l ∈ ringLabels mn mx step ↔
      ∃ k : ℕ, l = mn + k * step ∧ l ≤ mx) ∧
    mx ∈ ringLabels mn mx step := by
  have hD : (((mx - mn).toNat : ℤ)) = mx - mn := Int.toNat_of_nonneg (by omega)
  have hS : ((step.toNat : ℤ)) = step := Int.toNat_of_nonneg hstep.le
  have hSdvd : step.toNat ∣ (mx - mn).toNat := by
    have hcast : ((step.toNat : ℤ)) ∣ (((mx - mn).toNat : ℤ)) := by
      rw [hD, hS]; exact hdvd
    exact_mod_cast hcast
  have hDq : (mx - mn).toNat / step.toNat * step.toNat = (mx - mn).toNat :=
    Nat.div_mul_cancel hSdvd
  have hqstep : (((mx - mn).toNat / step.toNat : ℕ) : ℤ) * step = mx - mn := by
    calc (((mx - mn).toNat / step.toNat : ℕ) : ℤ) * step
        = (((mx - mn).toNat / step.toNat : ℕ) : ℤ) * ((step.toNat : ℤ)) := by
          rw [hS]
      _ = (((mx - mn).toNat / step.toNat * step.toNat : ℕ) : ℤ) := by
          push_cast
          ring
      _ = (((mx - mn).toNat : ℕ) : ℤ) := by rw [hDq]
      _ = mx - mn := hD
  have hlab : ringLabels mn mx step =
      (List.range ((mx - mn).toNat / step.toNat + 1)).map
        (fun (k : ℕ) => mn + (k : ℤ) * step) := by
    simp [ringLabels, not_lt.2 hle]
  constructor
  · intro l
    rw [hlab]
    simp only [List.mem_map, List.mem_range]
    constructor
    · rintro ⟨k, hk, rfl⟩
      refine ⟨k, rfl, ?_⟩
      have hkq : (k : ℤ) ≤ (((mx - mn).toNat / step.toNat : ℕ) : ℤ) := by
        exact_mod_cast Nat.lt_succ_iff.1 hk
      have hmul : (k : ℤ) * step ≤
          (((mx - mn).toNat / step.toNat : ℕ) : ℤ) * step :=
        mul_le_mul_of_nonneg_right hkq hstep.le
      linarith [hqstep]
    · rintro ⟨k, rfl, hle2⟩
      refine ⟨k, ?_, rfl⟩
      have hk1 : (k : ℤ) * step ≤ mx - mn := by linarith
      have hk2 : (k : ℤ) * step ≤
          (((mx - mn).toNat / step.toNat : ℕ) : ℤ) * step := by
        rw [hqstep]; exact hk1
      have hk3 : (k : ℤ) ≤ (((mx - mn).toNat / step.toNat : ℕ) : ℤ) :=
        le_of_mul_le_mul_right hk2 hstep
      have hk4 : k ≤ (mx - mn).toNat / step.toNat := by exact_mod_cast hk3
      omega
  · rw [hlab]
    simp only [List.mem_map, List.mem_range]
    refine ⟨(mx - mn).toNat / step.toNat, by omega, ?_⟩
    rw [hqstep]
    ring

/-- max_radius appears among the generated labels exactly when the range
is nonempty and the step divides it evenly — the success condition of
the clbuffer_{max_radius} column selection. -/
theorem max_mem_ringLabels_iff (mn mx step : ℤ) (hstep : 0 < step) :
    mx ∈ ringLabels mn mx step ↔ (mn ≤ mx ∧ step ∣ (mx - mn)) := by
  constructor
  · intro h
    have hle : mn ≤ mx := by
      by_contra hlt
      rw [ringLabels_nil_of_lt mn mx step (by omega)] at h
      simp at h
    obtain ⟨k, hk⟩ := mem_ringLabels_exists mn mx step mx h
    exact ⟨hle, ⟨(k : ℤ), by linarith⟩⟩
  · rintro ⟨hle, hdvd⟩
    exact (ringLabels_arith mn mx step hstep hle hdvd).2

/-- Every emitted ring record carries representative radius
label - step/2. -/
theorem ringRadii_rep (mn mx step : ℤ) :
    ∀ r ∈ ringRadii mn mx step, r.2 = (r.1 : ℚ) - (step : ℚ) / 2 := by
  intro r hr
  simp only [ringRadii, List.mem_map] at hr
  obtain ⟨l, -, rfl⟩ := hr
  rfl

/-- C7: for a positive step, when the step divides the range evenly the
buffer/ring assembly succeeds and its ring records' radius labels are
exactly the arithmetic sequence min_radius, min_radius + step, ...,
max_radius, each record carrying representative radius label - step/2;
when the step does not divide the range evenly or the range produces
zero steps, max_radius is not among the generated labels, the
clbuffer_{max_radius} column selection fails, and the call aborts with
the configuration error (an unhandled KeyError) before emitting any
ring record. -/
theorem C7_ring_records (mn mx step : ℤ) (hstep : 0 < step) :
    (mn ≤ mx → step ∣ (mx - mn) →
      bufferRings mn mx step = .ok (ringRadii mn mx step) ∧
      (∀ l : ℤ, l ∈ ringLabels mn mx step ↔
        ∃ k : ℕ, l = mn + k * step ∧ l ≤ mx) ∧
      mx ∈ ringLabels mn mx step ∧
      (ringRadii mn mx step).map Prod.fst = ringLabels mn mx step ∧
      ∀ r ∈ ringRadii mn mx step, r.2 = (r.1 : ℚ) - (step : ℚ) / 2) ∧
    (¬ (mn ≤ mx ∧ step ∣ (mx - mn)) → bufferRings mn mx step = .error ()) := by
  constructor
  · intro hle hdvd
    obtain ⟨hiff, hmem⟩ := ringLabels_arith mn mx step hstep hle hdvd
    refine ⟨by simp [bufferRings, hmem], hiff, hmem, ?_, ringRadii_rep mn mx step⟩
    simp only [ringRadii, List.map_map]
    have hfst : (Prod.fst ∘ fun r : ℤ => (r, (r : ℚ) - (step : ℚ) / 2)) =
        fun r : ℤ => r := rfl
    rw [hfst, List.map_id']
  · intro hne
    have hmx : mx ∉ ringLabels mn mx step := by
      rw [max_mem_ringLabels_iff mn mx step hstep]
      exact hne
    simp [bufferRings, hmx]

/-- C7, witness: with step 1000 the dividing range 1000..3000 succeeds
with labels reaching max_radius 3000, while the uneven range 1000..2500
and the zero-step range 2000..1000 abort with the error. -/
theorem C7_ring_witness :
    bufferRings 1000 3000 1000 = .ok (ringRadii 1000 3000 1000) ∧
    (3000 : ℤ) ∈ ringLabels 1000 3000 1000 ∧
    bufferRings 1000 2500 1000 = .error () ∧
    bufferRings 2000 1000 500 = .error () := by
  have h1 := C7_ring_records 1000 3000 1000 (by norm_num)
  have h2 := C7_ring_records 1000 2500 1000 (by norm_num)
  have h3 := C7_ring_records 2000 1000 500 (by norm_num)
  obtain ⟨hok, -, hmem, -, -⟩ := h1.1 (by norm_num) (by norm_num)
  refine ⟨hok, hmem, h2.2 ?_, h3.2 ?_⟩
  · rintro ⟨-, hdvd⟩
    omega
  · rintro ⟨hle, -⟩
    omega

/-! ### C8: points without an assigned site -/

/-- getD through zipWith, for an in-bounds index. -/
theorem zipWith_getD {α β γ : Type} (f : α → β → γ) (a : List α) (b : List β)
    (i : ℕ) (hia : i < a.length) (hib : i < b.length)
    (da : α) (db : β) (dc : γ) :
    (a.zipWith f b).getD i dc = f (a.getD i da) (b.getD i db) := by
  induction a generalizing b i with
  | nil => simp at hia
  | cons x xs ih =>
      cases b with
      | nil => simp at hib
      | cons y ys =>
          cases i with
          | zero => simp [List.getD]
          | succ n =>
              simp only [List.zipWith_cons_cons, List.getD_cons_succ]
              exact ih ys n (by simpa using hia) (by simpa using hib)

/-- getD through a broadcast over equal-length inputs. -/
theorem broadcast2_getD {α : Type} (f : EVal → EVal → α) (a b : List EVal)
    (h : a.length = b.length) (i : ℕ) (hi : i < b.length) (dc : α) :
    (broadcast2 f a b).getD i dc = f (a.getD i .nan) (b.getD i .nan) := by
  by_cases h1 : a.length = 1
  · obtain ⟨x, rfl⟩ := List.length_eq_one.1 h1
    have hb1 : b.length = 1 := by omega
    obtain ⟨y, rfl⟩ := List.length_eq_one.1 hb1
    have hi0 : i = 0 := by omega
    subst hi0
    simp [broadcast2, List.getD]
  · have h2 : b.length ≠ 1 := by omega
    simp only [broadcast2, if_neg h1, if_neg h2]
    exact zipWith_getD f a b i (by omega) hi .nan .nan dc

/-- poiddatareq at a nan distance yields nan (exception path) or inf
(the beyond-max_radius branch), never a finite value. -/
theorem poiddatareq_nan_getD (c : Cfg) (ds : List EVal) (i : ℕ)
    (hi : i < ds.length) (hd : ds.getD i (.fin 0) = .nan) :
    (poiddatareq c ds).getD i .nan = .nan ∨
    (poiddatareq c ds).getD i .nan = .inf := by
  unfold poiddatareq
  split
  · left
    rw [getD_map _ _ i hi (EVal.fin 0) EVal.nan]
  · split
    · left
      rw [getD_map _ _ i hi (EVal.fin 0) EVal.nan]
    · next dl heq =>
        have hdl : dl = ds.map (dl_bitrate_at c) := by
          unfold get_dl_bitrate at heq
          split at heq
          · exact absurd heq (by simp)
          · split at heq
            · exact absurd heq (by simp)
            · simp only [Except.ok.injEq] at heq
              exact heq.symm
        subst hdl
        right
        rw [zipmap_getD (dl_bitrate_at c) _ ds i hi, hd, EVal.ble_nan_left]
        simp

/-- C8: a point whose site identifier is missing after the merge (and
whose ground distance is the nan the visibility step produces for such
points) gets its available cell capacity defaulted to zero by fillna,
and its final sufficiency check is false: its resource-block requirement
is inf (or nan on the exception path), and 0 > inf and 0 > nan are both
false. -/
theorem C8_unassigned_fails (c : Cfg) (siteCap : List (ℕ × EVal))
    (rows : List PoiRow) (i : ℕ) (hi : i < rows.length)
    (hnone : (rows.getD i dummyRow).ict_id = none)
    (hnan : (rows.getD i dummyRow).ground_distance = .nan) :
    (poiCellavcap siteCap rows).getD i .nan = .fin 0 ∧
    (poiSufficiency c siteCap rows).getD i true = false := by
  have hcav : (poiCellavcap siteCap rows).getD i .nan = .fin 0 := by
    unfold poiCellavcap
    rw [getD_map _ _ i hi dummyRow EVal.nan]
    unfold mergeCellavcap
    rw [hnone]
    rfl
  refine ⟨hcav, ?_⟩
  have hlen_cav : (poiCellavcap siteCap rows).length = rows.length := by
    simp [poiCellavcap]
  have hlen_gd : (rows.map (fun r => r.ground_distance)).length = rows.length := by
    simp
  have hlen_rb : (poiddatareq c (rows.map (fun r => r.ground_distance))).length =
      rows.length := by
    rw [poiddatareq_length, hlen_gd]
  have hsuf : sufcapch (poiCellavcap siteCap rows)
      (poiddatareq c (rows.map (fun r => r.ground_distance))) =
      .ok (broadcast2 EVal.bgt (poiCellavcap siteCap rows)
        (poiddatareq c (rows.map (fun r => r.ground_distance)))) := by
    unfold sufcapch
    rw [if_neg]
    rintro ⟨-, -, h3⟩
    exact h3 (by rw [hlen_cav, hlen_rb])
  simp only [poiSufficiency, hsuf]
  rw [broadcast2_getD _ _ _ (by rw [hlen_cav, hlen_rb]) i
    (by rw [hlen_rb]; exact hi) true, hcav]
  have hdist : (rows.map (fun r => r.ground_distance)).getD i (.fin 0) = .nan := by
    rw [getD_map _ _ i hi dummyRow (EVal.fin 0)]
    exact hnan
  rcases poiddatareq_nan_getD c _ i (by rw [hlen_gd]; exact hi) hdist with h | h
  · rw [h]
    exact EVal.bgt_fin_nan 0
  · rw [h]
    exact EVal.bgt_fin_inf 0

/-- C8, witness: a single point with no site and nan distance, an empty
site-capacity table and the scenario configuration. -/
theorem C8_witness :
    (poiCellavcap [] [⟨1, none, .nan, .nan⟩]).getD 0 .nan = .fin 0 ∧
    (poiSufficiency (cfgScn 2000) [] [⟨1, none, .nan, .nan⟩]).getD 0 true = false :=
  C8_unassigned_fails (cfgScn 2000) [] [⟨1, none, .nan, .nan⟩] 0 (by simp) rfl rfl

/-! ### C9: visibility-mode dispatch -/

/-- Live mode performs exactly one oracle invocation per point with a
present site id. -/
theorem liveCalls_length (assigned : List AssignedPoi) :
    (liveCalls assigned).length =
      (assigned.filter (fun a => a.ict_id.isSome)).length := by
  induction assigned with
  | nil => rfl
  | cons a t ih =>
      cases ha : a.ict_id with
      | none =>
          simpa [liveCalls, List.filterMap_cons, List.filter_cons, ha]
            using ih
      | some s =>
          simpa [liveCalls, List.filterMap_cons, List.filter_cons, ha]
            using ih

/-- C9: when a precomputed visibility table is supplied, no oracle
invocation occurs and every produced row either carries the data of a
rank-order-1 table row matching its point id or is the all-nan
unmatched default (rows of other rank orders are never used); when no
table is supplied, live mode runs: the oracle calls are exactly one per
point with a present site id, and unassigned points get nan
distance/visibility without any call.  The mode is selected by whether
the table was supplied, so exactly one of the two behaviors happens per
invocation. -/
theorem C9_mode_exclusivity (pois : List ℕ) (assigned : List AssignedPoi)
    (oracle : ℕ → ℕ → EVal × EVal) (pre : Option (List VisPair)) :
    (∀ vt, pre = some vt →
      (resolveVisibility pre pois assigned oracle).2 = [] ∧
      ∀ r ∈ (resolveVisibility pre pois assigned oracle).1,
        (∃ v ∈ vt, v.order = 1 ∧ v.poi_id = r.poi_id ∧ r.ict_id = v.ict_id ∧
          r.ground_distance = v.ground_distance ∧ r.is_visible = v.is_visible) ∨
        (r.ict_id = none ∧ r.ground_distance = .nan ∧
          ∀ v ∈ vt, v.order = 1 → v.poi_id ≠ r.poi_id)) ∧
    (pre = none →
      (resolveVisibility pre pois assigned oracle).2 = liveCalls assigned ∧
      (resolveVisibility pre pois assigned oracle).2.length =
        (assigned.filter (fun a => a.ict_id.isSome)).length ∧
      ∀ r ∈ (resolveVisibility pre pois assigned oracle).1,
        r.ict_id = none → r.ground_distance = .nan ∧ r.is_visible = .nan) := by
  constructor
  · rintro vt rfl
    refine ⟨rfl, ?_⟩
    intro r hr
    simp only [resolveVisibility, precomputedRows, List.mem_flatMap] at hr
    obtain ⟨p, hp, hr⟩ := hr
    by_cases hms : ((vt.filter (fun v => v.order = 1)).filter
        (fun v => v.poi_id = p)).isEmpty
    · rw [if_pos hms] at hr
      simp only [List.mem_singleton] at hr
      subst hr
      refine Or.inr ⟨rfl, rfl, ?_⟩
      intro v hv hord hpid
      have hvf : v ∈ (vt.filter (fun v => v.order = 1)).filter
          (fun v => v.poi_id = p) := by
        refine List.mem_filter.2 ⟨List.mem_filter.2 ⟨hv, by simp [hord]⟩, ?_⟩
        simp only at hpid
        simp [hpid]
      rw [List.isEmpty_iff] at hms
      rw [hms] at hvf
      simp at hvf
    · rw [if_neg hms] at hr
      simp only [List.mem_map] at hr
      obtain ⟨v, hv, hr⟩ := hr
      obtain ⟨hv1, hvp⟩ := List.mem_filter.1 hv
      obtain ⟨hvt, hord⟩ := List.mem_filter.1 hv1
      subst hr
      refine Or.inl ⟨v, hvt, by simpa using hord, by simpa using hvp, rfl, rfl, rfl⟩
  · rintro rfl
    refine ⟨rfl, liveCalls_length assigned, ?_⟩
    intro r hr hnone
    simp only [resolveVisibility, liveRows, List.mem_map] at hr
    obtain ⟨a, ha, rfl⟩ := hr
    simp only at hnone
    simp [get_visibility_status, hnone]

/-- C9, witness: with a supplied one-row table no oracle call is
recorded, and in live mode with one assigned point exactly one call is
made. -/
theorem C9_witness :
    (resolveVisibility (some vtW) [7] [] (fun _ _ => (.nan, .nan))).2 = [] ∧
    (resolveVisibility none [7] [⟨7, some 3⟩] (fun _ _ => (.nan, .nan))).2.length =
      (([⟨7, some 3⟩] : List AssignedPoi).filter (fun a => a.ict_id.isSome)).length := by
  constructor
  · exact ((C9_mode_exclusivity [7] [] (fun _ _ => (.nan, .nan)) (some vtW)).1 vtW rfl).1
  · exact ((C9_mode_exclusivity [7] [⟨7, some 3⟩] (fun _ _ => (.nan, .nan)) none).2 rfl).2.1

end MobileCapacity
